import Mathlib

/-!
Shallow embedding of the RecipeApp repository (a Django REST recipe API).
The core logic embedded here is the tag/ingredient reconciliation of
`app/recipe/serializers.py` (`RecipeSerializer._get_or_create_tags`,
`_get_or_create_ingredients`, `create`, `update`), the owner-scoped
queryset of `app/recipe/views.py` (`RecipeViewSet.get_queryset` together
with the generic item-endpoint dispatch), and the user manager described
by the spec and exercised by `app/core/tests/test_models.py`.

Persistent state is passed explicitly through a `Store`.  A recipe's
many-to-many association sets are kept denormalised on the `Recipe`
value as lists of label row ids; `saveRecipe` writes the instance back,
mirroring `instance.save()` / the immediate persistence of M2M adds.
-/

namespace RecipeApp

abbrev UserId := Nat

/-- A Tag or Ingredient row: primary key, owning user, name.
The reconciler treats both kinds identically (spec: "Label"). -/
structure Label where
  id : Nat
  user : UserId
  name : String
deriving DecidableEq, Repr

/-- A Recipe row, with its M2M association sets denormalised as lists of
label row ids (`tags`, `ingredients`). -/
structure Recipe where
  id : Nat
  user : UserId
  title : String
  time_minutes : Nat
  price : Int
  link : String
  descriptionText : String
  tags : List Nat
  ingredients : List Nat
deriving DecidableEq, Repr

/-- The persistence store: the Tag table, the Ingredient table, the
Recipe table, and the next fresh primary key for each. -/
structure Store where
  tagRows : List Label
  ingredientRows : List Label
  recipes : List Recipe
  nextTagId : Nat
  nextIngredientId : Nat
  nextRecipeId : Nat
deriving DecidableEq, Repr

/-- `Model.objects.get(user=u, name=n)` within a label table: the lookup
step of Django's `get_or_create`. -/
def findLabel (rows : List Label) (u : UserId) (n : String) : Option Label :=
  rows.find? (fun l => l.user == u && l.name == n)

/-- M2M `add`: set semantics, adding an already-present id is a no-op. -/
def addAssoc (assoc : List Nat) (x : Nat) : List Nat :=
  if x ∈ assoc then assoc else assoc ++ [x]

/-- One `Model.objects.get_or_create(user=auth_user, **descriptor)` call on a
label table: look up by (owner, name); if found reuse the row, otherwise
insert a fresh row.  Returns the updated table, the next fresh id, and the
resolved row. -/
def getOrCreateStep (rows : List Label) (next : Nat) (u : UserId) (n : String) :
    List Label × Nat × Label :=
  match findLabel rows u n with
  | some l => (rows, next, l)
  | none => (rows ++ [⟨next, u, n⟩], next + 1, ⟨next, u, n⟩)

/-- The loop body shared by `_get_or_create_tags` and
`_get_or_create_ingredients`: for each descriptor in input order,
get-or-create the label row and add it to the association set.
State is (label table, next fresh id, association set). -/
def reconcileLabels (u : UserId) :
    List Label × Nat × List Nat → List String → List Label × Nat × List Nat
  | st, [] => st
  | (rows, next, assoc), n :: rest =>
    let out := getOrCreateStep rows next u n
    reconcileLabels u (out.1, out.2.1, addAssoc assoc out.2.2.id) rest

/-- `RecipeSerializer._get_or_create_tags(instance, tags)`:
get-or-create each descriptor scoped to the acting user and add it to
`instance.tags`. -/
def getOrCreateTags (s : Store) (u : UserId) (inst : Recipe) (tags : List String) :
    Store × Recipe :=
  let out := reconcileLabels u (s.tagRows, s.nextTagId, inst.tags) tags
  ({ s with tagRows := out.1, nextTagId := out.2.1 }, { inst with tags := out.2.2 })

/-- `RecipeSerializer._get_or_create_ingredients(instance, ingredients)`. -/
def getOrCreateIngredients (s : Store) (u : UserId) (inst : Recipe)
    (ingredients : List String) : Store × Recipe :=
  let out := reconcileLabels u (s.ingredientRows, s.nextIngredientId, inst.ingredients) ingredients
  ({ s with ingredientRows := out.1, nextIngredientId := out.2.1 },
   { inst with ingredients := out.2.2 })

/-- `instance.save()`: write the instance back over the row with its id. -/
def saveRecipe (s : Store) (r : Recipe) : Store :=
  { s with recipes := s.recipes.map (fun x => if x.id = r.id then r else x) }

/-- A scalar field assignment, as `setattr(instance, attr, value)` sees it.
`userField` is included because a raw payload may carry a `user` value;
serializer validation is what keeps it away from `update`. -/
inductive FieldVal where
  | title (v : String)
  | time_minutes (v : Nat)
  | price (v : Int)
  | link (v : String)
  | descriptionField (v : String)
  | userField (v : UserId)
deriving DecidableEq, Repr

def FieldVal.fieldName : FieldVal → String
  | .title _ => "title"
  | .time_minutes _ => "time_minutes"
  | .price _ => "price"
  | .link _ => "link"
  | .descriptionField _ => "description"
  | .userField _ => "user"

/-- Python `setattr(instance, attr, value)`: sets whatever field it is
given, including `user`. -/
def setattr (r : Recipe) : FieldVal → Recipe
  | .title v => { r with title := v }
  | .time_minutes v => { r with time_minutes := v }
  | .price v => { r with price := v }
  | .link v => { r with link := v }
  | .descriptionField v => { r with descriptionText := v }
  | .userField v => { r with user := v }

/-- `RecipeSerializer.Meta.fields` plus the `description` field added by
`RecipeDetailSerializer.Meta`. -/
def detailMetaFields : List String :=
  ["id", "title", "time_minutes", "price", "link", "tags", "ingredients", "description"]

/-- `RecipeSerializer.Meta.read_only_fields`. -/
def readOnlyFields : List String := ["id"]

/-- DRF `ModelSerializer` validation of the scalar part of a payload: only
declared, writable fields survive into `validated_data`; undeclared keys
(such as `user`) are dropped. -/
def validateAttrs (raw : List FieldVal) : List FieldVal :=
  raw.filter (fun f =>
    decide (f.fieldName ∈ detailMetaFields) && decide (f.fieldName ∉ readOnlyFields))

/-- `validated_data` as `RecipeSerializer.update` receives it: the nested
`tags` / `ingredients` keys (each `none` when the field was absent from the
request) and the remaining scalar assignments. -/
structure ValidatedData where
  tags : Option (List String)
  ingredients : Option (List String)
  attrs : List FieldVal
deriving DecidableEq, Repr

/-- `validated_data` as `RecipeSerializer.create` receives it. -/
structure CreateData where
  title : String
  time_minutes : Nat
  price : Int
  link : String
  descriptionText : String
  tags : Option (List String)
  ingredients : Option (List String)
deriving DecidableEq, Repr

/-- `RecipeSerializer.create(validated_data)` with the acting user `u`
supplied by `perform_create` (`serializer.save(user=request.user)`):
pop tags and ingredients with `[]` as default, create the recipe row,
then attach both label kinds. -/
def RecipeSerializer.create (s : Store) (u : UserId) (vd : CreateData) : Store × Recipe :=
  let tags := vd.tags.getD []
  let ingredients := vd.ingredients.getD []
  let recipe : Recipe :=
    ⟨s.nextRecipeId, u, vd.title, vd.time_minutes, vd.price, vd.link,
      vd.descriptionText, [], []⟩
  let s0 := { s with recipes := s.recipes ++ [recipe], nextRecipeId := s.nextRecipeId + 1 }
  let o1 := getOrCreateTags s0 u recipe tags
  let o2 := getOrCreateIngredients o1.1 u o1.2 ingredients
  (saveRecipe o2.1 o2.2, o2.2)

/-- `RecipeSerializer.update(instance, validated_data)`: pop `tags`; when
present (not `None`) clear the association set and re-attach; likewise for
`ingredients`; then assign the remaining scalar attributes and save. -/
def RecipeSerializer.update (s : Store) (u : UserId) (inst : Recipe)
    (vd : ValidatedData) : Store × Recipe :=
  let o1 :=
    match vd.tags with
    | none => (s, inst)
    | some ts => getOrCreateTags s u { inst with tags := [] } ts
  let o2 :=
    match vd.ingredients with
    | none => o1
    | some ins => getOrCreateIngredients o1.1 u { o1.2 with ingredients := [] } ins
  let final := vd.attrs.foldl setattr o2.2
  (saveRecipe o2.1 final, final)

/-! ### View layer (item endpoints)

`RecipeViewSet.get_queryset` is from `app/recipe/views.py`; the generic
retrieve/update/destroy dispatch around it is DRF framework code, modelled
from the spec ("404 if the targeted recipe belongs to a different owner"). -/

inductive HttpStatus where
  | ok
  | created
  | noContent
  | notFound
  | unauthorized
deriving DecidableEq, Repr

/-- Insertion of a recipe into a list sorted by descending id
(`order_by('-id')`). -/
def insertByIdDesc (r : Recipe) : List Recipe → List Recipe
  | [] => [r]
  | x :: xs => if x.id ≤ r.id then r :: x :: xs else x :: insertByIdDesc r xs

/-- Sort a recipe list by descending id (`order_by('-id')`). -/
def orderByIdDesc : List Recipe → List Recipe
  | [] => []
  | x :: xs => insertByIdDesc x (orderByIdDesc xs)

/-- `RecipeViewSet.get_queryset`:
`self.queryset.filter(user=self.request.user).order_by('-id')`. -/
def getQueryset (s : Store) (u : UserId) : List Recipe :=
  orderByIdDesc (s.recipes.filter (fun r => r.user == u))

/-- Modelled from the spec: DRF's generic `get_object` resolves the URL pk
within the view's (owner-filtered) queryset; a recipe outside it is simply
not found. -/
def getObject (s : Store) (u : UserId) (rid : Nat) : Option Recipe :=
  (getQueryset s u).find? (fun r => r.id == rid)

/-- Modelled from the spec: the item-endpoint retrieve operation — 404 when
the pk does not resolve inside the owner-filtered queryset. -/
def retrieveRecipe (s : Store) (u : UserId) (rid : Nat) : Option Recipe × HttpStatus :=
  match getObject s u rid with
  | none => (none, .notFound)
  | some r => (some r, .ok)

/-- Modelled from the spec: the item-endpoint destroy operation — 404 when
the pk does not resolve inside the owner-filtered queryset, otherwise the
row is deleted. -/
def destroyRecipe (s : Store) (u : UserId) (rid : Nat) : Store × HttpStatus :=
  match getObject s u rid with
  | none => (s, .notFound)
  | some r =>
    ({ s with recipes := s.recipes.filter (fun x => !(x.id == r.id)) }, .noContent)

/-- Modelled from the spec: the item-endpoint update operation — 404 when
the pk does not resolve inside the owner-filtered queryset, otherwise the
serializer's `update` runs on the resolved instance. -/
def updateRecipeEndpoint (s : Store) (u : UserId) (rid : Nat) (vd : ValidatedData) :
    Store × HttpStatus :=
  match getObject s u rid with
  | none => (s, .notFound)
  | some r => ((RecipeSerializer.update s u r vd).1, .ok)

/-! ### User manager

`core/models.py` is not under `src/`; only its tests are. The manager is
modelled from the spec and `app/core/tests/test_models.py`. -/

/-- A user row. -/
structure User where
  id : Nat
  email : String
  password : String
deriving DecidableEq, Repr

/-- The user table. -/
structure UserStore where
  users : List User
  nextUserId : Nat
deriving DecidableEq, Repr

/-- Split a character list at its LAST occurrence of a character, returning
the parts before and after it. -/
def splitAtLast (c : Char) : List Char → Option (List Char × List Char)
  | [] => none
  | x :: xs =>
    match splitAtLast c xs with
    | some out => some (x :: out.1, out.2)
    | none => if x = c then some ([], xs) else none

/-- Modelled from the spec: `BaseUserManager.normalize_email` — the domain
portion (after the last `@`) is lower-cased, the local part is preserved;
an email with no `@` is left unchanged. -/
def normalize_email (e : String) : String :=
  match splitAtLast '@' e.data with
  | some out => String.mk (out.1 ++ '@' :: out.2.map Char.toLower)
  | none => e

/-- Modelled from the spec: `UserManager.create_user` from `core/models.py`
(absent from `src/`) — a missing/empty email raises `ValueError` and no
user is created; otherwise the user is stored with the normalized email. -/
def create_user (st : UserStore) (email password : String) :
    Except String (UserStore × User) :=
  if email = "" then .error "Users must have an email address"
  else
    let u : User := ⟨st.nextUserId, normalize_email email, password⟩
    .ok ({ users := st.users ++ [u], nextUserId := st.nextUserId + 1 }, u)

/-! ### Conflict-retry get-or-create

The `get_or_create` primitive used by the reconciler is ORM code outside
`src/`. Modelled from the spec (§4.1, §4.2, §9): the store enforces
(owner, name) uniqueness as a backstop, and get-or-create is the explicit
two-step lookup-then-create-with-conflict-retry. The stale snapshot
`snapRows` models a concurrent writer committing between the first lookup
and the create. -/

/-- Modelled from the spec: the persistence store's `create` with the
(owner, name) uniqueness backstop — it raises a conflict instead of
inserting a duplicate row. -/
def labelStoreCreate (rows : List Label) (next : Nat) (u : UserId) (n : String) :
    Except Unit (List Label × Nat × Label) :=
  if (findLabel rows u n).isSome then .error ()
  else .ok (rows ++ [⟨next, u, n⟩], next + 1, ⟨next, u, n⟩)

/-- Modelled from the spec: get-or-create as lookup, then create, with a
conflict caught and re-resolved by a second lookup; only a conflict that a
lookup still cannot explain is re-raised. -/
def getOrCreateRetry (snapRows rows : List Label) (next : Nat) (u : UserId) (n : String) :
    Except Unit (List Label × Nat × Label) :=
  match findLabel snapRows u n with
  | some l => .ok (rows, next, l)
  | none =>
    match labelStoreCreate rows next u n with
    | .ok out => .ok out
    | .error _ =>
      match findLabel rows u n with
      | some l => .ok (rows, next, l)
      | none => .error ()

/-! ### Invariants -/

/-- At most one label row per (owner, name). -/
def NoDupKeys (rows : List Label) : Prop :=
  rows.Pairwise (fun a b => ¬(a.user = b.user ∧ a.name = b.name))

/-- Primary keys are pairwise distinct. -/
def NoDupIds (rows : List Label) : Prop :=
  rows.Pairwise (fun a b => a.id ≠ b.id)

/-- Well-formed label table with respect to its next fresh id. -/
def RowsWF (rows : List Label) (next : Nat) : Prop :=
  NoDupKeys rows ∧ NoDupIds rows ∧ ∀ l ∈ rows, l.id < next

/-- Well-formed store: both label tables are well-formed. -/
def StoreWF (s : Store) : Prop :=
  RowsWF s.tagRows s.nextTagId ∧ RowsWF s.ingredientRows s.nextIngredientId

instance (rows : List Label) : Decidable (NoDupKeys rows) := by
  unfold NoDupKeys; infer_instance

instance (rows : List Label) : Decidable (NoDupIds rows) := by
  unfold NoDupIds; infer_instance

instance (rows : List Label) (next : Nat) : Decidable (RowsWF rows next) := by
  unfold RowsWF; infer_instance

instance (s : Store) : Decidable (StoreWF s) := by
  unfold StoreWF; infer_instance

/-! ### Basic lemmas -/

lemma findLabel_eq_none_iff {rows : List Label} {u : UserId} {n : String} :
    findLabel rows u n = none ↔ ∀ l ∈ rows, ¬(l.user = u ∧ l.name = n) := by
  simp [findLabel, List.find?_eq_none]

lemma findLabel_some {rows : List Label} {u : UserId} {n : String} {l : Label}
    (h : findLabel rows u n = some l) : l ∈ rows ∧ l.user = u ∧ l.name = n := by
  have hm := List.mem_of_find?_eq_some h
  have hp := List.find?_some h
  simp only [Bool.and_eq_true, beq_iff_eq] at hp
  exact ⟨hm, hp.1, hp.2⟩

lemma findLabel_isSome_of_mem {rows : List Label} {l : Label}
    (hl : l ∈ rows) (hu : l.user = u) (hn : l.name = n) :
    (findLabel rows u n).isSome := by
  rw [findLabel, List.find?_isSome]
  exact ⟨l, hl, by simp [hu, hn]⟩

lemma mem_addAssoc {assoc : List Nat} {x y : Nat} :
    x ∈ addAssoc assoc y ↔ x ∈ assoc ∨ x = y := by
  unfold addAssoc
  by_cases hy : y ∈ assoc
  · simp only [if_pos hy]
    constructor
    · exact Or.inl
    · rintro (hx | rfl)
      · exact hx
      · exact hy
  · simp [if_neg hy]

lemma noDupKeys_unique {rows : List Label} (h : NoDupKeys rows) {a b : Label}
    (ha : a ∈ rows) (hb : b ∈ rows) (hu : a.user = b.user) (hn : a.name = b.name) :
    a = b := by
  by_contra hne
  have hsym : Symmetric (fun a b : Label => ¬(a.user = b.user ∧ a.name = b.name)) := by
    intro x y hxy hyx
    exact hxy ⟨hyx.1.symm, hyx.2.symm⟩
  exact (h.forall hsym) ha hb hne ⟨hu, hn⟩

lemma noDupIds_unique {rows : List Label} (h : NoDupIds rows) {a b : Label}
    (ha : a ∈ rows) (hb : b ∈ rows) (hid : a.id = b.id) : a = b := by
  by_contra hne
  have hsym : Symmetric (fun a b : Label => a.id ≠ b.id) := fun x y hxy => (hxy ·.symm)
  exact (h.forall hsym) ha hb hne hid

/-! ### Properties of one get-or-create step -/

lemma getOrCreateStep_spec (rows : List Label) (next : Nat) (u : UserId) (n : String)
    (hwf : RowsWF rows next) :
    RowsWF (getOrCreateStep rows next u n).1 (getOrCreateStep rows next u n).2.1 ∧
    (∀ l ∈ rows, l ∈ (getOrCreateStep rows next u n).1) ∧
    (∀ l ∈ (getOrCreateStep rows next u n).1,
        l ∈ rows ∨ (l.user = u ∧ l.name = n)) ∧
    (getOrCreateStep rows next u n).2.2 ∈ (getOrCreateStep rows next u n).1 ∧
    (getOrCreateStep rows next u n).2.2.user = u ∧
    (getOrCreateStep rows next u n).2.2.name = n := by
  obtain ⟨hkeys, hids, hbound⟩ := hwf
  unfold getOrCreateStep
  cases hfind : findLabel rows u n with
  | some l =>
    obtain ⟨hm, hu, hn⟩ := findLabel_some hfind
    simp only
    exact ⟨⟨hkeys, hids, hbound⟩, fun l hl => hl, fun l hl => Or.inl hl, hm, hu, hn⟩
  | none =>
    have hnone := findLabel_eq_none_iff.mp hfind
    simp only
    refine ⟨⟨?_, ?_, ?_⟩, ?_, ?_, ?_, ?_, ?_⟩
    · rw [NoDupKeys, List.pairwise_append]
      exact ⟨hkeys, List.pairwise_singleton _ _,
        fun a ha b hb => by
          simp only [List.mem_singleton] at hb
          subst hb
          exact hnone a ha⟩
    · rw [NoDupIds, List.pairwise_append]
      exact ⟨hids, List.pairwise_singleton _ _,
        fun a ha b hb => by
          simp only [List.mem_singleton] at hb
          subst hb
          exact Nat.ne_of_lt (hbound a ha)⟩
    · intro l hl
      rcases List.mem_append.mp hl with hl | hl
      · exact Nat.lt_succ_of_lt (hbound l hl)
      · simp only [List.mem_singleton] at hl
        subst hl
        exact Nat.lt_succ_self next
    · exact fun l hl => List.mem_append.mpr (Or.inl hl)
    · intro l hl
      rcases List.mem_append.mp hl with hl | hl
      · exact Or.inl hl
      · simp only [List.mem_singleton] at hl
        subst hl
        exact Or.inr ⟨rfl, rfl⟩
    · exact List.mem_append.mpr (Or.inr (List.mem_singleton.mpr rfl))
    · trivial
    · trivial

/-- Key uniqueness alone is preserved by a get-or-create step: a row is
only created after the (owner, name) lookup came back empty. -/
lemma getOrCreateStep_keys (rows : List Label) (next : Nat) (u : UserId) (n : String)
    (h : NoDupKeys rows) : NoDupKeys (getOrCreateStep rows next u n).1 := by
  unfold getOrCreateStep
  cases hfind : findLabel rows u n with
  | some l => exact h
  | none =>
    have hnone := findLabel_eq_none_iff.mp hfind
    rw [NoDupKeys, List.pairwise_append]
    exact ⟨h, List.pairwise_singleton _ _,
      fun a ha b hb => by
        simp only [List.mem_singleton] at hb
        subst hb
        exact hnone a ha⟩

/-! ### Main reconciliation lemma -/

/-- What one `_get_or_create_*` loop does: the label table stays
well-formed and only grows, grows only with rows owned by the acting user
and named by a requested descriptor, and the final association set is
exactly the prior set together with the ids of the rows resolved for the
requested names. -/
lemma reconcileLabels_spec (u : UserId) :
    ∀ (ds : List String) (rows : List Label) (next : Nat) (assoc : List Nat),
      RowsWF rows next →
      RowsWF (reconcileLabels u (rows, next, assoc) ds).1
          (reconcileLabels u (rows, next, assoc) ds).2.1 ∧
      (∀ l ∈ rows, l ∈ (reconcileLabels u (rows, next, assoc) ds).1) ∧
      (∀ l ∈ (reconcileLabels u (rows, next, assoc) ds).1,
          l ∈ rows ∨ (l.user = u ∧ l.name ∈ ds)) ∧
      (∀ x, x ∈ (reconcileLabels u (rows, next, assoc) ds).2.2 ↔
          x ∈ assoc ∨ ∃ l ∈ (reconcileLabels u (rows, next, assoc) ds).1,
            l.id = x ∧ l.user = u ∧ l.name ∈ ds) := by
  intro ds
  induction ds with
  | nil =>
    intro rows next assoc hwf
    refine ⟨hwf, fun l hl => hl, fun l hl => Or.inl hl, ?_⟩
    intro x
    simp [reconcileLabels]
  | cons n rest ih =>
    intro rows next assoc hwf
    obtain ⟨hwf1, hsub1, hmem1, hres_mem, hres_user, hres_name⟩ :=
      getOrCreateStep_spec rows next u n hwf
    have hunfold : reconcileLabels u (rows, next, assoc) (n :: rest) =
        reconcileLabels u ((getOrCreateStep rows next u n).1,
          (getOrCreateStep rows next u n).2.1,
          addAssoc assoc (getOrCreateStep rows next u n).2.2.id) rest := rfl
    rw [hunfold]
    obtain ⟨hwf2, hsub2, hmem2, hassoc2⟩ := ih (getOrCreateStep rows next u n).1
      (getOrCreateStep rows next u n).2.1
      (addAssoc assoc (getOrCreateStep rows next u n).2.2.id) hwf1
    refine ⟨hwf2, ?_, ?_, ?_⟩
    · exact fun l hl => hsub2 l (hsub1 l hl)
    · intro l hl
      rcases hmem2 l hl with h1 | h1
      · rcases hmem1 l h1 with h2 | h2
        · exact Or.inl h2
        · exact Or.inr ⟨h2.1, h2.2 ▸ List.mem_cons_self _ _⟩
      · exact Or.inr ⟨h1.1, List.mem_cons_of_mem _ h1.2⟩
    · intro x
      rw [hassoc2, mem_addAssoc]
      constructor
      · rintro ((hx | rfl) | ⟨l, hl, rfl, hu, hn⟩)
        · exact Or.inl hx
        · exact Or.inr ⟨_, hsub2 _ hres_mem, rfl, hres_user,
            by rw [hres_name]; exact List.mem_cons_self _ _⟩
        · exact Or.inr ⟨l, hl, rfl, hu, List.mem_cons_of_mem _ hn⟩
      · rintro (hx | ⟨l, hl, rfl, hu, hn⟩)
        · exact Or.inl (Or.inl hx)
        · rcases List.mem_cons.mp hn with hn | hn
          · have hres_final := hsub2 _ hres_mem
            have heq : l = (getOrCreateStep rows next u n).2.2 :=
              noDupKeys_unique hwf2.1 hl hres_final
                (by rw [hu, hres_user]) (by rw [hn, hres_name])
            exact Or.inl (Or.inr (by rw [heq]))
          · exact Or.inr ⟨l, hl, rfl, hu, hn⟩

/-- Key uniqueness alone is preserved by the whole loop. -/
lemma reconcileLabels_keys (u : UserId) :
    ∀ (ds : List String) (rows : List Label) (next : Nat) (assoc : List Nat),
      NoDupKeys rows → NoDupKeys (reconcileLabels u (rows, next, assoc) ds).1 := by
  intro ds
  induction ds with
  | nil => intro rows next assoc h; exact h
  | cons n rest ih =>
    intro rows next assoc h
    exact ih _ _ _ (getOrCreateStep_keys rows next u n h)

/-! ### Frame facts about the serializer operations -/

lemma getOrCreateTags_frame (s : Store) (u : UserId) (inst : Recipe) (ds : List String) :
    (getOrCreateTags s u inst ds).1.ingredientRows = s.ingredientRows ∧
    (getOrCreateTags s u inst ds).1.nextIngredientId = s.nextIngredientId ∧
    (getOrCreateTags s u inst ds).1.recipes = s.recipes ∧
    (getOrCreateTags s u inst ds).2.id = inst.id ∧
    (getOrCreateTags s u inst ds).2.user = inst.user ∧
    (getOrCreateTags s u inst ds).2.ingredients = inst.ingredients :=
  ⟨rfl, rfl, rfl, rfl, rfl, rfl⟩

lemma getOrCreateIngredients_frame (s : Store) (u : UserId) (inst : Recipe)
    (ds : List String) :
    (getOrCreateIngredients s u inst ds).1.tagRows = s.tagRows ∧
    (getOrCreateIngredients s u inst ds).1.nextTagId = s.nextTagId ∧
    (getOrCreateIngredients s u inst ds).1.recipes = s.recipes ∧
    (getOrCreateIngredients s u inst ds).2.id = inst.id ∧
    (getOrCreateIngredients s u inst ds).2.user = inst.user ∧
    (getOrCreateIngredients s u inst ds).2.tags = inst.tags :=
  ⟨rfl, rfl, rfl, rfl, rfl, rfl⟩

lemma getOrCreateTags_nil (s : Store) (u : UserId) (inst : Recipe) :
    getOrCreateTags s u inst [] = (s, inst) := rfl

lemma getOrCreateIngredients_nil (s : Store) (u : UserId) (inst : Recipe) :
    getOrCreateIngredients s u inst [] = (s, inst) := rfl

lemma saveRecipe_frame (s : Store) (r : Recipe) :
    (saveRecipe s r).tagRows = s.tagRows ∧
    (saveRecipe s r).ingredientRows = s.ingredientRows ∧
    (saveRecipe s r).nextTagId = s.nextTagId ∧
    (saveRecipe s r).nextIngredientId = s.nextIngredientId :=
  ⟨rfl, rfl, rfl, rfl⟩

lemma setattr_frame (r : Recipe) (f : FieldVal) :
    (setattr r f).tags = r.tags ∧ (setattr r f).ingredients = r.ingredients ∧
    (setattr r f).id = r.id := by
  cases f <;> exact ⟨rfl, rfl, rfl⟩

lemma foldl_setattr_frame (attrs : List FieldVal) :
    ∀ r : Recipe, (attrs.foldl setattr r).tags = r.tags ∧
      (attrs.foldl setattr r).ingredients = r.ingredients ∧
      (attrs.foldl setattr r).id = r.id := by
  induction attrs with
  | nil => exact fun r => ⟨rfl, rfl, rfl⟩
  | cons f rest ih =>
    intro r
    have h1 := setattr_frame r f
    have h2 := ih (setattr r f)
    exact ⟨h2.1.trans h1.1, h2.2.1.trans h1.2.1, h2.2.2.trans h1.2.2⟩

lemma setattr_user_of_ne (r : Recipe) (f : FieldVal) (h : f.fieldName ≠ "user") :
    (setattr r f).user = r.user := by
  cases f with
  | userField v => exact absurd rfl h
  | title v => rfl
  | time_minutes v => rfl
  | price v => rfl
  | link v => rfl
  | descriptionField v => rfl

lemma foldl_setattr_user (attrs : List FieldVal)
    (h : ∀ f ∈ attrs, f.fieldName ≠ "user") :
    ∀ r : Recipe, (attrs.foldl setattr r).user = r.user := by
  induction attrs with
  | nil => exact fun r => rfl
  | cons f rest ih =>
    intro r
    have h1 := setattr_user_of_ne r f (h f (List.mem_cons_self _ _))
    have h2 := ih (fun g hg => h g (List.mem_cons_of_mem _ hg)) (setattr r f)
    exact h2.trans h1

/-- Every field surviving DRF validation is a declared writable field; in
particular `user` is dropped, since it is not in `Meta.fields`. -/
lemma validateAttrs_no_user (raw : List FieldVal) :
    ∀ f ∈ validateAttrs raw, f.fieldName ≠ "user" := by
  intro f hf
  have hp := List.of_mem_filter hf
  simp only [Bool.and_eq_true, decide_eq_true_eq] at hp
  intro hu
  rw [hu] at hp
  exact absurd hp.1 (by decide)

lemma getOrCreateTags_spec (s : Store) (u : UserId) (inst : Recipe) (ds : List String)
    (hwf : RowsWF s.tagRows s.nextTagId) :
    RowsWF (getOrCreateTags s u inst ds).1.tagRows
        (getOrCreateTags s u inst ds).1.nextTagId ∧
    (∀ l ∈ s.tagRows, l ∈ (getOrCreateTags s u inst ds).1.tagRows) ∧
    (∀ l ∈ (getOrCreateTags s u inst ds).1.tagRows,
        l ∈ s.tagRows ∨ (l.user = u ∧ l.name ∈ ds)) ∧
    (∀ x, x ∈ (getOrCreateTags s u inst ds).2.tags ↔
        x ∈ inst.tags ∨ ∃ l ∈ (getOrCreateTags s u inst ds).1.tagRows,
          l.id = x ∧ l.user = u ∧ l.name ∈ ds) :=
  reconcileLabels_spec u ds s.tagRows s.nextTagId inst.tags hwf

lemma getOrCreateIngredients_spec (s : Store) (u : UserId) (inst : Recipe)
    (ds : List String) (hwf : RowsWF s.ingredientRows s.nextIngredientId) :
    RowsWF (getOrCreateIngredients s u inst ds).1.ingredientRows
        (getOrCreateIngredients s u inst ds).1.nextIngredientId ∧
    (∀ l ∈ s.ingredientRows, l ∈ (getOrCreateIngredients s u inst ds).1.ingredientRows) ∧
    (∀ l ∈ (getOrCreateIngredients s u inst ds).1.ingredientRows,
        l ∈ s.ingredientRows ∨ (l.user = u ∧ l.name ∈ ds)) ∧
    (∀ x, x ∈ (getOrCreateIngredients s u inst ds).2.ingredients ↔
        x ∈ inst.ingredients ∨ ∃ l ∈ (getOrCreateIngredients s u inst ds).1.ingredientRows,
          l.id = x ∧ l.user = u ∧ l.name ∈ ds) :=
  reconcileLabels_spec u ds s.ingredientRows s.nextIngredientId inst.ingredients hwf

/-! ### Reductions of `update` to the reconciler -/

lemma update_tags_eq (s : Store) (u : UserId) (inst : Recipe) (vd : ValidatedData)
    (ts : List String) (hvt : vd.tags = some ts) :
    (RecipeSerializer.update s u inst vd).2.tags =
      (getOrCreateTags s u { inst with tags := [] } ts).2.tags ∧
    (RecipeSerializer.update s u inst vd).1.tagRows =
      (getOrCreateTags s u { inst with tags := [] } ts).1.tagRows := by
  cases hvi : vd.ingredients with
  | none =>
    simp only [RecipeSerializer.update, hvt, hvi]
    rw [(foldl_setattr_frame _ _).1]
    exact ⟨rfl, rfl⟩
  | some ins =>
    simp only [RecipeSerializer.update, hvt, hvi]
    rw [(foldl_setattr_frame _ _).1]
    exact ⟨(getOrCreateIngredients_frame _ _ _ _).2.2.2.2.2, rfl⟩

lemma update_tags_none (s : Store) (u : UserId) (inst : Recipe) (vd : ValidatedData)
    (hvt : vd.tags = none) :
    (RecipeSerializer.update s u inst vd).2.tags = inst.tags ∧
    (RecipeSerializer.update s u inst vd).1.tagRows = s.tagRows ∧
    (RecipeSerializer.update s u inst vd).1.nextTagId = s.nextTagId := by
  cases hvi : vd.ingredients with
  | none =>
    simp only [RecipeSerializer.update, hvt, hvi]
    rw [(foldl_setattr_frame _ _).1]
    exact ⟨rfl, rfl, rfl⟩
  | some ins =>
    simp only [RecipeSerializer.update, hvt, hvi]
    rw [(foldl_setattr_frame _ _).1]
    exact ⟨(getOrCreateIngredients_frame _ _ _ _).2.2.2.2.2, rfl, rfl⟩

lemma update_ingredients_eq (s : Store) (u : UserId) (inst : Recipe)
    (vd : ValidatedData) (ins : List String) (hvi : vd.ingredients = some ins) :
    (RecipeSerializer.update s u inst vd).2.ingredients =
      (reconcileLabels u (s.ingredientRows, s.nextIngredientId, ([] : List Nat)) ins).2.2 ∧
    (RecipeSerializer.update s u inst vd).1.ingredientRows =
      (reconcileLabels u (s.ingredientRows, s.nextIngredientId, ([] : List Nat)) ins).1 := by
  cases hvt : vd.tags with
  | none =>
    simp only [RecipeSerializer.update, hvt, hvi]
    rw [(foldl_setattr_frame _ _).2.1]
    exact ⟨rfl, rfl⟩
  | some ts =>
    simp only [RecipeSerializer.update, hvt, hvi]
    rw [(foldl_setattr_frame _ _).2.1]
    exact ⟨rfl, rfl⟩

lemma update_ingredients_none (s : Store) (u : UserId) (inst : Recipe)
    (vd : ValidatedData) (hvi : vd.ingredients = none) :
    (RecipeSerializer.update s u inst vd).2.ingredients = inst.ingredients ∧
    (RecipeSerializer.update s u inst vd).1.ingredientRows = s.ingredientRows ∧
    (RecipeSerializer.update s u inst vd).1.nextIngredientId = s.nextIngredientId := by
  cases hvt : vd.tags with
  | none =>
    simp only [RecipeSerializer.update, hvt, hvi]
    rw [(foldl_setattr_frame _ _).2.1]
    exact ⟨rfl, rfl, rfl⟩
  | some ts =>
    simp only [RecipeSerializer.update, hvt, hvi]
    rw [(foldl_setattr_frame _ _).2.1]
    exact ⟨(getOrCreateTags_frame _ _ _ _).2.2.2.2.2, rfl, rfl⟩

/-! ### Claim theorems -/

/-- C1: across any two attach/replace calls for an owner, a label name
never gets two distinct rows for that (owner, name): both serializer
operations preserve key-uniqueness of both label tables, because the
reconciler looks up by (owner, name) before creating; and when a row for
the key already exists, the get-or-create step reuses it, leaving the
table unchanged. -/
theorem claim_C1 (s : Store)
    (h : NoDupKeys s.tagRows ∧ NoDupKeys s.ingredientRows) :
    (∀ (u : UserId) (vd : CreateData),
        NoDupKeys (RecipeSerializer.create s u vd).1.tagRows ∧
        NoDupKeys (RecipeSerializer.create s u vd).1.ingredientRows) ∧
    (∀ (u : UserId) (inst : Recipe) (vd : ValidatedData),
        NoDupKeys (RecipeSerializer.update s u inst vd).1.tagRows ∧
        NoDupKeys (RecipeSerializer.update s u inst vd).1.ingredientRows) ∧
    (∀ (rows : List Label) (next : Nat) (u : UserId) (n : String) (l0 : Label),
        l0 ∈ rows → l0.user = u → l0.name = n →
        (getOrCreateStep rows next u n).1 = rows) := by
  refine ⟨?_, ?_, ?_⟩
  · intro u vd
    constructor
    · show NoDupKeys (reconcileLabels u (s.tagRows, s.nextTagId, ([] : List Nat))
        (vd.tags.getD [])).1
      exact reconcileLabels_keys u _ _ _ _ h.1
    · show NoDupKeys (reconcileLabels u (s.ingredientRows, s.nextIngredientId,
        ([] : List Nat)) (vd.ingredients.getD [])).1
      exact reconcileLabels_keys u _ _ _ _ h.2
  · intro u inst vd
    cases hvt : vd.tags with
    | none =>
      cases hvi : vd.ingredients with
      | none =>
        simp only [RecipeSerializer.update, hvt, hvi]
        exact h
      | some ins =>
        simp only [RecipeSerializer.update, hvt, hvi]
        exact ⟨h.1, reconcileLabels_keys u _ _ _ _ h.2⟩
    | some ts =>
      cases hvi : vd.ingredients with
      | none =>
        simp only [RecipeSerializer.update, hvt, hvi]
        exact ⟨reconcileLabels_keys u _ _ _ _ h.1, h.2⟩
      | some ins =>
        simp only [RecipeSerializer.update, hvt, hvi]
        exact ⟨reconcileLabels_keys u _ _ _ _ h.1,
          reconcileLabels_keys u _ _ _ _ h.2⟩
  · intro rows next u n l0 hmem hu hn
    unfold getOrCreateStep
    cases hfind : findLabel rows u n with
    | some l => rfl
    | none =>
      have := findLabel_eq_none_iff.mp hfind l0 hmem
      exact absurd ⟨hu, hn⟩ this

/-- C2: when `update` is called with the labels field explicitly supplied,
the recipe's association set for that kind afterwards is exactly the set
of resolved requested labels, whatever it contained before; an explicitly
empty list leaves it empty. -/
theorem claim_C2 (s : Store) (u : UserId) (inst : Recipe) (vd : ValidatedData)
    (hwf : StoreWF s) :
    (∀ ts, vd.tags = some ts →
      (∀ x, x ∈ (RecipeSerializer.update s u inst vd).2.tags ↔
          ∃ l ∈ (RecipeSerializer.update s u inst vd).1.tagRows,
            l.id = x ∧ l.user = u ∧ l.name ∈ ts) ∧
      (ts = [] → (RecipeSerializer.update s u inst vd).2.tags = [])) ∧
    (∀ ins, vd.ingredients = some ins →
      (∀ x, x ∈ (RecipeSerializer.update s u inst vd).2.ingredients ↔
          ∃ l ∈ (RecipeSerializer.update s u inst vd).1.ingredientRows,
            l.id = x ∧ l.user = u ∧ l.name ∈ ins) ∧
      (ins = [] → (RecipeSerializer.update s u inst vd).2.ingredients = [])) := by
  constructor
  · intro ts hvt
    obtain ⟨htags, hrows⟩ := update_tags_eq s u inst vd ts hvt
    have hspec := (getOrCreateTags_spec s u { inst with tags := [] } ts hwf.1).2.2.2
    constructor
    · intro x
      rw [htags, hrows, hspec x]
      simp
    · rintro rfl
      rw [htags, getOrCreateTags_nil]
  · intro ins hvi
    obtain ⟨hins, hrows⟩ := update_ingredients_eq s u inst vd ins hvi
    have hspec := (reconcileLabels_spec u ins s.ingredientRows s.nextIngredientId
      ([] : List Nat) hwf.2).2.2.2
    constructor
    · intro x
      rw [hins, hrows, hspec x]
      simp
    · rintro rfl
      rw [hins]
      rfl

/-- C3: when `update` is called with the labels field absent (`None`), the
recipe's association set for that kind and the label table are left exactly
as they were; by contrast a present-but-empty field clears the set, so
"absent" and "empty" genuinely differ. -/
theorem claim_C3 (s : Store) (u : UserId) (inst : Recipe) (vd : ValidatedData) :
    (vd.tags = none →
      (RecipeSerializer.update s u inst vd).2.tags = inst.tags ∧
      (RecipeSerializer.update s u inst vd).1.tagRows = s.tagRows ∧
      (RecipeSerializer.update s u inst vd).1.nextTagId = s.nextTagId) ∧
    (vd.ingredients = none →
      (RecipeSerializer.update s u inst vd).2.ingredients = inst.ingredients ∧
      (RecipeSerializer.update s u inst vd).1.ingredientRows = s.ingredientRows ∧
      (RecipeSerializer.update s u inst vd).1.nextIngredientId = s.nextIngredientId) ∧
    (vd.tags = some [] → (RecipeSerializer.update s u inst vd).2.tags = []) ∧
    (vd.ingredients = some [] →
      (RecipeSerializer.update s u inst vd).2.ingredients = []) := by
  refine ⟨?_, ?_, ?_, ?_⟩
  · exact fun hvt => update_tags_none s u inst vd hvt
  · exact fun hvi => update_ingredients_none s u inst vd hvi
  · intro hvt
    rw [(update_tags_eq s u inst vd [] hvt).1, getOrCreateTags_nil]
  · intro hvi
    rw [(update_ingredients_eq s u inst vd [] hvi).1]
    rfl

/-- C4: the attach operation is additive — afterwards the association set
is exactly the union of the pre-existing associations and the resolved
requested labels — and attaching an empty list is a complete no-op on both
the recipe and the store. -/
theorem claim_C4 (s : Store) (u : UserId) (inst : Recipe) (ds : List String)
    (hwf : StoreWF s) :
    (∀ x, x ∈ (getOrCreateTags s u inst ds).2.tags ↔
        x ∈ inst.tags ∨ ∃ l ∈ (getOrCreateTags s u inst ds).1.tagRows,
          l.id = x ∧ l.user = u ∧ l.name ∈ ds) ∧
    getOrCreateTags s u inst [] = (s, inst) ∧
    (∀ x, x ∈ (getOrCreateIngredients s u inst ds).2.ingredients ↔
        x ∈ inst.ingredients ∨
          ∃ l ∈ (getOrCreateIngredients s u inst ds).1.ingredientRows,
            l.id = x ∧ l.user = u ∧ l.name ∈ ds) ∧
    getOrCreateIngredients s u inst [] = (s, inst) :=
  ⟨(getOrCreateTags_spec s u inst ds hwf.1).2.2.2,
   getOrCreateTags_nil s u inst,
   (getOrCreateIngredients_spec s u inst ds hwf.2).2.2.2,
   getOrCreateIngredients_nil s u inst⟩

/-- C5: every label the reconciler newly associates with the recipe is
owned by the acting user, and a label row owned by a different user is
never added to the association set, even when its name matches a requested
descriptor. -/
theorem claim_C5 (s : Store) (u : UserId) (inst : Recipe) (ds : List String)
    (hwf : StoreWF s) :
    (∀ x, x ∈ (getOrCreateTags s u inst ds).2.tags → x ∈ inst.tags ∨
        ∃ l ∈ (getOrCreateTags s u inst ds).1.tagRows, l.id = x ∧ l.user = u) ∧
    (∀ l0 ∈ s.tagRows, l0.user ≠ u → l0.id ∉ inst.tags →
        l0.id ∉ (getOrCreateTags s u inst ds).2.tags) ∧
    (∀ x, x ∈ (getOrCreateIngredients s u inst ds).2.ingredients →
        x ∈ inst.ingredients ∨
        ∃ l ∈ (getOrCreateIngredients s u inst ds).1.ingredientRows,
          l.id = x ∧ l.user = u) ∧
    (∀ l0 ∈ s.ingredientRows, l0.user ≠ u → l0.id ∉ inst.ingredients →
        l0.id ∉ (getOrCreateIngredients s u inst ds).2.ingredients) := by
  obtain ⟨hwfT, hsubT, _, hassocT⟩ := getOrCreateTags_spec s u inst ds hwf.1
  obtain ⟨hwfI, hsubI, _, hassocI⟩ := getOrCreateIngredients_spec s u inst ds hwf.2
  refine ⟨?_, ?_, ?_, ?_⟩
  · intro x hx
    rcases (hassocT x).mp hx with hx | ⟨l, hl, hid, hu, _⟩
    · exact Or.inl hx
    · exact Or.inr ⟨l, hl, hid, hu⟩
  · intro l0 hl0 hne hnotin hmem
    rcases (hassocT _).mp hmem with hx | ⟨l, hl, hid, hu, _⟩
    · exact hnotin hx
    · exact hne (noDupIds_unique hwfT.2.1 (hsubT l0 hl0) hl hid.symm ▸ hu)
  · intro x hx
    rcases (hassocI x).mp hx with hx | ⟨l, hl, hid, hu, _⟩
    · exact Or.inl hx
    · exact Or.inr ⟨l, hl, hid, hu⟩
  · intro l0 hl0 hne hnotin hmem
    rcases (hassocI _).mp hmem with hx | ⟨l, hl, hid, hu, _⟩
    · exact hnotin hx
    · exact hne (noDupIds_unique hwfI.2.1 (hsubI l0 hl0) hl hid.symm ▸ hu)

/-- C6: when the store's create raises a (owner, name) uniqueness conflict
during get-or-create — the lookup saw a stale snapshot without the row,
but the row exists by create time — the conflict is caught and re-resolved
by a second lookup, and the call returns the existing row instead of
propagating an error. -/
theorem claim_C6 (snapRows rows : List Label) (next : Nat) (u : UserId) (n : String)
    (hsnap : findLabel snapRows u n = none)
    (hex : (findLabel rows u n).isSome) :
    ∃ l, getOrCreateRetry snapRows rows next u n = .ok (rows, next, l) ∧
      l ∈ rows ∧ l.user = u ∧ l.name = n := by
  cases hfind : findLabel rows u n with
  | none => rw [hfind] at hex; simp at hex
  | some l =>
    obtain ⟨hm, hu, hn⟩ := findLabel_some hfind
    refine ⟨l, ?_, hm, hu, hn⟩
    simp [getOrCreateRetry, labelStoreCreate, hsnap, hfind]

/-! ### Lemmas for the view layer -/

lemma mem_insertByIdDesc {r x : Recipe} : ∀ {l : List Recipe},
    x ∈ insertByIdDesc r l ↔ x = r ∨ x ∈ l := by
  intro l
  induction l with
  | nil => simp [insertByIdDesc]
  | cons y ys ih =>
    unfold insertByIdDesc
    by_cases h : y.id ≤ r.id
    · simp [if_pos h]
    · simp only [if_neg h, List.mem_cons, ih]
      tauto

lemma mem_orderByIdDesc {x : Recipe} : ∀ {l : List Recipe},
    x ∈ orderByIdDesc l ↔ x ∈ l := by
  intro l
  induction l with
  | nil => simp [orderByIdDesc]
  | cons y ys ih => simp [orderByIdDesc, mem_insertByIdDesc, ih]

lemma recipeIds_unique {rs : List Recipe}
    (h : rs.Pairwise (fun a b => a.id ≠ b.id)) {a b : Recipe}
    (ha : a ∈ rs) (hb : b ∈ rs) (hid : a.id = b.id) : a = b := by
  by_contra hne
  have hsym : Symmetric (fun a b : Recipe => a.id ≠ b.id) := fun x y hxy => (hxy ·.symm)
  exact (h.forall hsym) ha hb hne hid

/-- C7: an item-endpoint request (retrieve, update, delete) aimed at a
recipe owned by a different user resolves to nothing inside the
owner-filtered queryset, so the response is 404 (not forbidden), the store
is untouched, and the foreign recipe still exists afterwards. -/
theorem claim_C7 (s : Store) (u : UserId) (rid : Nat) (r : Recipe)
    (hr : r ∈ s.recipes) (hown : r.user ≠ u) (hid : rid = r.id)
    (hids : s.recipes.Pairwise (fun a b => a.id ≠ b.id)) :
    retrieveRecipe s u rid = (none, .notFound) ∧
    destroyRecipe s u rid = (s, .notFound) ∧
    (∀ vd, updateRecipeEndpoint s u rid vd = (s, .notFound)) ∧
    r ∈ (destroyRecipe s u rid).1.recipes := by
  have hobj : getObject s u rid = none := by
    rw [getObject, List.find?_eq_none]
    intro x hx
    have hx' : x ∈ s.recipes.filter (fun q => q.user == u) :=
      mem_orderByIdDesc.mp hx
    have hxmem : x ∈ s.recipes := List.mem_of_mem_filter hx'
    have hxu : x.user = u := by
      have := List.of_mem_filter hx'
      simpa using this
    simp only [beq_iff_eq]
    intro hxe
    have hxr : x = r := recipeIds_unique hids hxmem hr (by rw [hxe, hid])
    rw [hxr] at hxu
    exact hown hxu
  refine ⟨?_, ?_, ?_, ?_⟩
  · simp [retrieveRecipe, hobj]
  · simp [destroyRecipe, hobj]
  · intro vd
    simp [updateRecipeEndpoint, hobj]
  · simp only [destroyRecipe, hobj]
    exact hr

/-! ### Lemmas for email normalization -/

lemma splitAtLast_eq_none {c : Char} : ∀ {l : List Char}, c ∉ l →
    splitAtLast c l = none := by
  intro l
  induction l with
  | nil => intro; rfl
  | cons x xs ih =>
    intro h
    have hx : ¬(x = c) := fun he => h (he ▸ List.mem_cons_self _ _)
    have hxs : c ∉ xs := fun hm => h (List.mem_cons_of_mem _ hm)
    unfold splitAtLast
    rw [ih hxs, if_neg hx]

lemma splitAtLast_append {c : Char} (l d : List Char) (hd : c ∉ d) :
    splitAtLast c (l ++ c :: d) = some (l, d) := by
  induction l with
  | nil =>
    rw [List.nil_append]
    unfold splitAtLast
    rw [splitAtLast_eq_none hd, if_pos rfl]
  | cons x xs ih =>
    rw [List.cons_append]
    unfold splitAtLast
    rw [ih]

/-- C8: creating a user with a non-empty email stores it with the domain
portion lower-cased and the local part preserved unchanged, appending
exactly one user row; creating a user with an empty email fails with an
error. -/
theorem claim_C8 (st : UserStore) (email password : String) (l d : List Char)
    (he : email.data = l ++ '@' :: d) (hd : '@' ∉ d) :
    (∃ st' usr, create_user st email password = Except.ok (st', usr) ∧
      usr.email.data = l ++ '@' :: d.map Char.toLower ∧
      st'.users = st.users ++ [usr]) ∧
    (∃ msg, create_user st "" password = Except.error msg) := by
  constructor
  · have hne : ¬(email = "") := by
      intro h0
      rw [h0] at he
      exact absurd he.symm (by simp)
    have hnorm : normalize_email email = String.mk (l ++ '@' :: d.map Char.toLower) := by
      rw [normalize_email, he, splitAtLast_append l d hd]
    refine ⟨⟨st.users ++ [⟨st.nextUserId, normalize_email email, password⟩],
        st.nextUserId + 1⟩,
      ⟨st.nextUserId, normalize_email email, password⟩, ?_, ?_, rfl⟩
    · simp only [create_user, if_neg hne]
    · rw [hnorm]
  · exact ⟨_, rfl⟩

/-- C9: on creation (unlike update), an absent labels field behaves
exactly like an explicitly empty one: the whole operation is the same as
with `[]` supplied, the new recipe's association set for that kind is
empty, and no label rows are created. -/
theorem claim_C9 (s : Store) (u : UserId) (vd : CreateData) :
    (vd.tags = none →
      RecipeSerializer.create s u vd =
        RecipeSerializer.create s u { vd with tags := some [] } ∧
      (RecipeSerializer.create s u vd).2.tags = [] ∧
      (RecipeSerializer.create s u vd).1.tagRows = s.tagRows) ∧
    (vd.ingredients = none →
      RecipeSerializer.create s u vd =
        RecipeSerializer.create s u { vd with ingredients := some [] } ∧
      (RecipeSerializer.create s u vd).2.ingredients = [] ∧
      (RecipeSerializer.create s u vd).1.ingredientRows = s.ingredientRows) := by
  constructor
  · intro hvt
    simp only [RecipeSerializer.create, hvt, Option.getD_none, Option.getD_some]
    exact ⟨trivial, rfl, rfl⟩
  · intro hvi
    simp only [RecipeSerializer.create, hvi, Option.getD_none, Option.getD_some]
    exact ⟨trivial, rfl, rfl⟩

lemma update_user_eq (s : Store) (u : UserId) (inst : Recipe) (vd : ValidatedData)
    (h : ∀ f ∈ vd.attrs, f.fieldName ≠ "user") :
    (RecipeSerializer.update s u inst vd).2.user = inst.user := by
  cases hvt : vd.tags <;> cases hvi : vd.ingredients <;>
      simp only [RecipeSerializer.update, hvt, hvi] <;>
    rw [foldl_setattr_user _ h] <;> rfl

/-- C10: `update` never changes a recipe's owner: whatever raw scalar
payload is supplied — including a `user` assignment — serializer
validation keeps only the declared writable fields, `user` is not among
them, and the owner after the call equals the owner before. -/
theorem claim_C10 (s : Store) (u : UserId) (inst : Recipe)
    (tagsOpt ingsOpt : Option (List String)) (raw : List FieldVal) :
    (RecipeSerializer.update s u inst ⟨tagsOpt, ingsOpt, validateAttrs raw⟩).2.user =
      inst.user :=
  update_user_eq s u inst ⟨tagsOpt, ingsOpt, validateAttrs raw⟩
    (validateAttrs_no_user raw)

/-! ### Sample data for witnesses -/

def emptyStore : Store := ⟨[], [], [], 0, 0, 0⟩

def sampleRecipe : Recipe :=
  ⟨0, 7, "Sample recipe", 22, 5, "http://www.sample.com", "Sample description", [], []⟩

def sampleCreate : CreateData :=
  ⟨"Chocolate cake", 30, 5, "", "", some ["cake", "chocolate"], none⟩

def sampleCreateNone : CreateData := ⟨"Chocolate cake", 30, 5, "", "", none, none⟩

def sampleVD : ValidatedData := ⟨some ["chocolate"], none, []⟩

def sampleVDnone : ValidatedData := ⟨none, none, []⟩

/-- A store holding one tag owned by user 5, used to exercise the
foreign-owner scenarios. -/
def foreignStore : Store := ⟨[⟨0, 5, "cake"⟩], [], [], 1, 0, 0⟩

def foreignRecipe : Recipe := ⟨3, 5, "Other", 1, 1, "", "", [], []⟩

def viewStore : Store := ⟨[], [], [foreignRecipe], 0, 0, 4⟩

/-! ### Witnesses -/

/-- Witness for C1 at a concrete store and create call. -/
theorem claim_C1_witness :
    (NoDupKeys emptyStore.tagRows ∧ NoDupKeys emptyStore.ingredientRows) ∧
    NoDupKeys (RecipeSerializer.create emptyStore 7 sampleCreate).1.tagRows :=
  ⟨⟨by decide, by decide⟩,
    ((claim_C1 emptyStore ⟨by decide, by decide⟩).1 7 sampleCreate).1⟩

/-- Witness for C2: a concrete replace call, membership instantiated. -/
theorem claim_C2_witness :
    0 ∈ (RecipeSerializer.update emptyStore 7 sampleRecipe sampleVD).2.tags ↔
      ∃ l ∈ (RecipeSerializer.update emptyStore 7 sampleRecipe sampleVD).1.tagRows,
        l.id = 0 ∧ l.user = 7 ∧ l.name ∈ ["chocolate"] :=
  ((claim_C2 emptyStore 7 sampleRecipe sampleVD (by decide)).1 ["chocolate"] rfl).1 0

/-- Witness for C3 at a concrete update call with the tags field absent. -/
theorem claim_C3_witness :
    (RecipeSerializer.update emptyStore 7 sampleRecipe sampleVDnone).2.tags =
      sampleRecipe.tags ∧
    (RecipeSerializer.update emptyStore 7 sampleRecipe sampleVDnone).1.tagRows =
      emptyStore.tagRows ∧
    (RecipeSerializer.update emptyStore 7 sampleRecipe sampleVDnone).1.nextTagId =
      emptyStore.nextTagId :=
  (claim_C3 emptyStore 7 sampleRecipe sampleVDnone).1 rfl

/-- Witness for C4 at a concrete attach call, membership instantiated. -/
theorem claim_C4_witness :
    0 ∈ (getOrCreateTags emptyStore 7 sampleRecipe ["cake"]).2.tags ↔
      0 ∈ sampleRecipe.tags ∨
        ∃ l ∈ (getOrCreateTags emptyStore 7 sampleRecipe ["cake"]).1.tagRows,
          l.id = 0 ∧ l.user = 7 ∧ l.name ∈ ["cake"] :=
  (claim_C4 emptyStore 7 sampleRecipe ["cake"] (by decide)).1 0

/-- Witness for C5: the foreign "cake" tag owned by user 5 is never
associated when user 7 requests a tag named "cake". -/
theorem claim_C5_witness :
    0 ∉ (getOrCreateTags foreignStore 7 sampleRecipe ["cake"]).2.tags :=
  (claim_C5 foreignStore 7 sampleRecipe ["cake"] (by decide)).2.1
    ⟨0, 5, "cake"⟩ (by decide) (by decide) (by decide)

/-- Witness for C6: a conflict arising from a stale empty snapshot against
a store already holding the row is resolved to the existing row. -/
theorem claim_C6_witness :
    ∃ l, getOrCreateRetry [] [⟨0, 7, "cake"⟩] 1 7 "cake" =
        .ok ([⟨0, 7, "cake"⟩], 1, l) ∧
      l ∈ [(⟨0, 7, "cake"⟩ : Label)] ∧ l.user = 7 ∧ l.name = "cake" :=
  claim_C6 [] [⟨0, 7, "cake"⟩] 1 7 "cake" (by decide) (by decide)

/-- Witness for C7 at a concrete foreign recipe. -/
theorem claim_C7_witness :
    retrieveRecipe viewStore 7 3 = (none, .notFound) ∧
    destroyRecipe viewStore 7 3 = (viewStore, .notFound) ∧
    updateRecipeEndpoint viewStore 7 3 sampleVDnone = (viewStore, .notFound) ∧
    foreignRecipe ∈ (destroyRecipe viewStore 7 3).1.recipes := by
  have h := claim_C7 viewStore 7 3 foreignRecipe (by decide) (by decide) rfl (by decide)
  exact ⟨h.1, h.2.1, h.2.2.1 sampleVDnone, h.2.2.2⟩

/-- Witness for C8 at one of the test suite's sample emails. -/
theorem claim_C8_witness :
    (∃ st' usr, create_user ⟨[], 0⟩ "Test2@Example.com" "testpass" =
        Except.ok (st', usr) ∧
      usr.email.data = "Test2".data ++ '@' :: "Example.com".data.map Char.toLower ∧
      st'.users = ([] : List User) ++ [usr]) ∧
    (∃ msg, create_user ⟨[], 0⟩ "" "testpass" = Except.error msg) :=
  claim_C8 ⟨[], 0⟩ "Test2@Example.com" "testpass" "Test2".data "Example.com".data
    (by decide) (by decide)

/-- Witness for C9 at a concrete create call without the tags field. -/
theorem claim_C9_witness :
    RecipeSerializer.create emptyStore 7 sampleCreateNone =
      RecipeSerializer.create emptyStore 7 { sampleCreateNone with tags := some [] } ∧
    (RecipeSerializer.create emptyStore 7 sampleCreateNone).2.tags = [] ∧
    (RecipeSerializer.create emptyStore 7 sampleCreateNone).1.tagRows =
      emptyStore.tagRows :=
  (claim_C9 emptyStore 7 sampleCreateNone).1 rfl

end RecipeApp
